import Mathlib

/-!
# Verification of the `optimized_miner.py` proof-of-work mining client

Shallow embedding of the mining client's data model and operations.

Conventions of the embedding:

* Byte strings are `List Nat` with every element below 256.
* The source file's bytes literals contain characters outside ASCII (`ý`,
  `þ`, `ÿ`) and Unicode escapes; each character of a bytes literal is
  embedded as its code point (e.g. `ý` is the byte `0xFD`, the escape for
  `U+0001` is the byte `0x01`).  The literal written as an empty bytes
  string multiplied by 32 denotes the empty byte string under every
  reading, and is embedded as `[]`.
* `struct.pack` calls are embedded as `Option`-valued packers: they return
  `none` exactly when the Python call raises `struct.error` (value out of
  range for the format), and the little-endian bytes otherwise.
* The double SHA-256 (`hashlib.sha256` applied twice) is embedded as a
  full executable FIPS 180-4 SHA-256 over byte lists.
* RPC responses, wall-clock readings and `os.urandom` draws are external
  inputs; they appear as explicit parameters of the embedded operations.
  Hex-string template fields (`previousblockhash`, `bits`) are represented
  by the byte sequences `bytes.fromhex` yields from them, and the `target`
  field by the integer `int(.., 16)` yields.
* Stateful operations (the module-level payout-script cache, the template
  cache, the shared nonce counter, the main loop) are embedded as explicit
  state-passing functions.
-/

/-! ## Little-endian packers (`struct.pack`) -/

/-- The two bytes of `n % 2^16` in little-endian order (`struct.pack("<H", n)`
for an in-range value). -/
def le2 (n : Nat) : List Nat := [n % 256, n / 256 % 256]

/-- The four bytes of `n % 2^32` in little-endian order (`struct.pack("<I", n)`
for an in-range value). -/
def le4 (n : Nat) : List Nat :=
  [n % 256, n / 256 % 256, n / 2 ^ 16 % 256, n / 2 ^ 24 % 256]

/-- The eight bytes of `n % 2^64` in little-endian order
(`struct.pack("<Q", n)` for an in-range value). -/
def le8 (n : Nat) : List Nat :=
  [n % 256, n / 2 ^ 8 % 256, n / 2 ^ 16 % 256, n / 2 ^ 24 % 256,
   n / 2 ^ 32 % 256, n / 2 ^ 40 % 256, n / 2 ^ 48 % 256, n / 2 ^ 56 % 256]

/-- `struct.pack("<I", n)`: four little-endian bytes, or an error
(`none`) when `n` does not fit an unsigned 32-bit integer. -/
def pack_u32 (n : Nat) : Option (List Nat) :=
  if n < 2 ^ 32 then some (le4 n) else none

/-- `struct.pack("<H", n)`: two little-endian bytes, or an error when `n`
does not fit an unsigned 16-bit integer. -/
def pack_u16 (n : Nat) : Option (List Nat) :=
  if n < 2 ^ 16 then some (le2 n) else none

/-- `struct.pack("<Q", n)`: eight little-endian bytes, or an error when `n`
does not fit an unsigned 64-bit integer. -/
def pack_u64 (n : Nat) : Option (List Nat) :=
  if n < 2 ^ 64 then some (le8 n) else none

/-- `struct.pack("<i", v)`: the four little-endian bytes of the two's
complement of `v`, or an error when `v` does not fit a signed 32-bit
integer. -/
def pack_i32 (v : Int) : Option (List Nat) :=
  if -(2 ^ 31) ≤ v ∧ v < 2 ^ 31 then some (le4 ((v % 2 ^ 32).toNat)) else none

/-- `int.from_bytes(l, "big")`: the big-endian integer value of a byte
sequence. -/
def beVal (l : List Nat) : Nat := l.foldl (fun acc b => 256 * acc + b) 0

/-! ## SHA-256 (FIPS 180-4, the function `hashlib.sha256` computes) -/

/-- The eight working variables of the SHA-256 compression function. -/
structure H8 where
  a : Nat
  b : Nat
  c : Nat
  d : Nat
  e : Nat
  f : Nat
  g : Nat
  h : Nat
  deriving DecidableEq, Repr

/-- Right rotation of a 32-bit word. -/
def rotr32 (k x : Nat) : Nat :=
  ((x >>> k) ||| (x <<< (32 - k))) &&& 0xFFFFFFFF

/-- SHA-256 big sigma 0. -/
def sigmaBig0 (x : Nat) : Nat := rotr32 2 x ^^^ rotr32 13 x ^^^ rotr32 22 x

/-- SHA-256 big sigma 1. -/
def sigmaBig1 (x : Nat) : Nat := rotr32 6 x ^^^ rotr32 11 x ^^^ rotr32 25 x

/-- SHA-256 small sigma 0. -/
def sigmaSmall0 (x : Nat) : Nat := rotr32 7 x ^^^ rotr32 18 x ^^^ (x >>> 3)

/-- SHA-256 small sigma 1. -/
def sigmaSmall1 (x : Nat) : Nat := rotr32 17 x ^^^ rotr32 19 x ^^^ (x >>> 10)

/-- SHA-256 choice function (the complement is a xor against the 32-bit
mask, sound because the working variables stay below `2^32`). -/
def chf (x y z : Nat) : Nat := (x &&& y) ^^^ ((x ^^^ 0xFFFFFFFF) &&& z)

/-- SHA-256 majority function. -/
def majf (x y z : Nat) : Nat := (x &&& y) ^^^ (x &&& z) ^^^ (y &&& z)

/-- The 64 SHA-256 round constants. -/
def sha256K : List Nat :=
  [1116352408, 1899447441, 3049323471, 3921009573,
   961987163, 1508970993, 2453635748, 2870763221,
   3624381080, 310598401, 607225278, 1426881987,
   1925078388, 2162078206, 2614888103, 3248222580,
   3835390401, 4022224774, 264347078, 604807628,
   770255983, 1249150122, 1555081692, 1996064986,
   2554220882, 2821834349, 2952996808, 3210313671,
   3336571891, 3584528711, 113926993, 338241895,
   666307205, 773529912, 1294757372, 1396182291,
   1695183700, 1986661051, 2177026350, 2456956037,
   2730485921, 2820302411, 3259730800, 3345764771,
   3516065817, 3600352804, 4094571909, 275423344,
   430227734, 506948616, 659060556, 883997877,
   958139571, 1322822218, 1537002063, 1747873779,
   1955562222, 2024104815, 2227730452, 2361852424,
   2428436474, 2756734187, 3204031479, 3329325298]

/-- The SHA-256 initial hash value. -/
def sha256H0 : H8 :=
  ⟨1779033703, 3144134277, 1013904242, 2773480762,
   1359893119, 2600822924, 528734635, 1541459225⟩

/-- One SHA-256 round: fold the next schedule word and round constant into
the working variables. -/
def sha256Round (st : H8) (wk : Nat × Nat) : H8 :=
  let t1 := (st.h + sigmaBig1 st.e + chf st.e st.f st.g + wk.1 + wk.2) % 2 ^ 32
  let t2 := (sigmaBig0 st.a + majf st.a st.b st.c) % 2 ^ 32
  ⟨(t1 + t2) % 2 ^ 32, st.a, st.b, st.c, (st.d + t1) % 2 ^ 32, st.e, st.f, st.g⟩

/-- Group a byte sequence into big-endian 32-bit words, four bytes at a
time. -/
def toWordsBE : List Nat → List Nat
  | a :: b :: c :: d :: rest =>
      (a * 2 ^ 24 + b * 2 ^ 16 + c * 2 ^ 8 + d) :: toWordsBE rest
  | _ => []

/-- Extend the message schedule: `rev` holds the words produced so far,
most recent first; each step prepends the next word. -/
def scheduleRev (rev : List Nat) : Nat → List Nat
  | 0 => rev
  | k + 1 =>
      scheduleRev
        ((sigmaSmall1 (rev.getD 1 0) + rev.getD 6 0 + sigmaSmall0 (rev.getD 14 0) +
            rev.getD 15 0) % 2 ^ 32 :: rev) k

/-- The 64-word SHA-256 message schedule of one 16-word block. -/
def sha256Schedule (ws : List Nat) : List Nat :=
  (scheduleRev ws.reverse 48).reverse

/-- The SHA-256 compression function applied to one 64-byte block. -/
def sha256Compress (st : H8) (block : List Nat) : H8 :=
  let ws := sha256Schedule (toWordsBE block)
  let t := (ws.zip sha256K).foldl sha256Round st
  ⟨(st.a + t.a) % 2 ^ 32, (st.b + t.b) % 2 ^ 32, (st.c + t.c) % 2 ^ 32,
   (st.d + t.d) % 2 ^ 32, (st.e + t.e) % 2 ^ 32, (st.f + t.f) % 2 ^ 32,
   (st.g + t.g) % 2 ^ 32, (st.h + t.h) % 2 ^ 32⟩

/-- Compress `k` consecutive 64-byte blocks of `data`. -/
def sha256Blocks (st : H8) (data : List Nat) : Nat → H8
  | 0 => st
  | k + 1 => sha256Blocks (sha256Compress st (data.take 64)) (data.drop 64) k

/-- The eight bytes of the 64-bit big-endian message-length field. -/
def be8 (n : Nat) : List Nat :=
  [n >>> 56 &&& 255, n >>> 48 &&& 255, n >>> 40 &&& 255, n >>> 32 &&& 255,
   n >>> 24 &&& 255, n >>> 16 &&& 255, n >>> 8 &&& 255, n &&& 255]

/-- SHA-256 padding: a `0x80` byte, zeros to 56 mod 64, and the bit length
as eight big-endian bytes. -/
def sha256Pad (m : List Nat) : List Nat :=
  m ++ 0x80 :: List.replicate ((64 - (m.length + 9) % 64) % 64) 0 ++
    be8 (8 * m.length)

/-- The four bytes of a 32-bit word in big-endian order. -/
def wordBE (w : Nat) : List Nat :=
  [w >>> 24 &&& 255, w >>> 16 &&& 255, w >>> 8 &&& 255, w &&& 255]

/-- `hashlib.sha256(m).digest()`: the 32-byte SHA-256 digest of `m`. -/
def sha256 (m : List Nat) : List Nat :=
  let p := sha256Pad m
  let st := sha256Blocks sha256H0 p (p.length / 64)
  wordBE st.a ++ wordBE st.b ++ wordBE st.c ++ wordBE st.d ++
    wordBE st.e ++ wordBE st.f ++ wordBE st.g ++ wordBE st.h

/-- `dsha256(data)` from the source: SHA-256 applied twice. -/
def dsha256 (data : List Nat) : List Nat := sha256 (sha256 data)

/-! ## `compact_size` -/

/-- `compact_size(n)` from the source: the Bitcoin variable-length integer
encoding.  Values below `0xFD` are a single byte; up to `0xFFFF` a `0xFD`
marker plus two little-endian bytes; up to `0xFFFFFFFF` a `0xFE` marker
plus four; otherwise a `0xFF` marker plus eight — where the final
`struct.pack("<Q", n)` raises (here: `none`) for `n ≥ 2^64`. -/
def compact_size (n : Nat) : Option (List Nat) :=
  if n < 0xfd then some [n]
  else if n ≤ 0xffff then (pack_u16 n).map (fun b => 0xfd :: b)
  else if n ≤ 0xffffffff then (pack_u32 n).map (fun b => 0xfe :: b)
  else (pack_u64 n).map (fun b => 0xff :: b)

/-! ## `create_coinbase` -/

/-- `create_coinbase(height, msg)` from the source, with the resolved
payout script passed explicitly (the source reads it from
`get_mining_script()`).  Field by field, as the source concatenates it:
the two single-byte literals, the empty bytes string multiplied by 32
(which contributes nothing), the all-ones previous-output index, the
length-prefixed input script (a `0x04` byte, the packed height, the tag
message), the all-ones sequence, the single-byte output count, the packed
subsidy of `50 * 100000000`, the length-prefixed payout script, and a
final empty literal.  `none` models a `struct.error` from one of the
`pack` calls. -/
def create_coinbase (height : Nat) (msg : List Nat) (script_pub : List Nat) :
    Option (List Nat) :=
  match pack_u32 height with
  | none => none
  | some height_bytes =>
    let script := 0x04 :: (height_bytes ++ msg)
    match compact_size script.length, pack_u64 (50 * 100000000),
        compact_size script_pub.length with
    | some cs_script, some subsidy, some cs_spk =>
        some ([0x01] ++ [0x01] ++ ([] : List Nat) ++ [0xff, 0xff, 0xff, 0xff] ++
          cs_script ++ script ++ [0xff, 0xff, 0xff, 0xff] ++ [0x01] ++
          subsidy ++ cs_spk ++ script_pub ++ ([] : List Nat))
    | _, _, _ => none

/-! ## `get_mining_script` -/

/-- The fallthrough path of `get_mining_script` once the cache misses:
`addr_ok` is whether the `getnewaddress` RPC returned a truthy address,
`spk` is the script bytes when `validateaddress` returned a truthy result
carrying a `scriptPubKey` (else `none`), and `rand` is the 20-byte
`os.urandom(20)` draw.  Returns the produced script and the new value of
the module-level `MINING_ADDR_HEX` cache. -/
def resolveScript (addr_ok : Bool) (spk : Option (List Nat))
    (rand : List Nat) (cached : Option (List Nat)) :
    List Nat × Option (List Nat) :=
  if addr_ok then
    match spk with
    | some sv => (sv, some sv)
    | none => (rand, cached)
  else (rand, cached)

/-- `get_mining_script()` from the source: return the cached
`MINING_ADDR_HEX` when it is truthy (set and nonempty), otherwise resolve
via RPC, caching only a successfully extracted `scriptPubKey`. -/
def get_mining_script (cached : Option (List Nat)) (addr_ok : Bool)
    (spk : Option (List Nat)) (rand : List Nat) :
    List Nat × Option (List Nat) :=
  match cached with
  | some v => if v = [] then resolveScript addr_ok spk rand (some v)
              else (v, some v)
  | none => resolveScript addr_ok spk rand none

/-! ## Block template and template cache -/

/-- A block template as `btc_worker` reads it from the
`getblocktemplate` response: hex-string fields are represented by their
`bytes.fromhex` decoding, `target` by its `int(.., 16)` value. -/
structure BlockTemplate where
  version : Int
  previousblockhash : List Nat
  curtime : Nat
  bits : List Nat
  target : Nat
  height : Nat
  deriving DecidableEq, Repr

/-- The state of a `CachedBlockTemplate` instance. -/
structure CacheState where
  template : Option BlockTemplate
  last_update : Int
  deriving DecidableEq, Repr

/-- `CachedBlockTemplate.get` from the source: fetch when no template is
held or more than `BLOCK_TEMPLATE_REFRESH_SECONDS = 30` seconds elapsed
since `last_update`; a failed fetch (`fetchResult = none`) leaves the
state untouched.  `now` is the `time.time()` reading and `fetchResult`
the `getblocktemplate` RPC response.  The returned `Bool` records
whether the RPC fetch was issued. -/
def cacheGet (now : Int) (fetchResult : Option BlockTemplate)
    (s : CacheState) : Bool × Option BlockTemplate × CacheState :=
  if s.template = none ∨ now - s.last_update > 30 then
    match fetchResult with
    | some t => (true, some t, ⟨some t, now⟩)
    | none => (true, s.template, s)
  else (false, s.template, s)

/-- The fetch condition of `CachedBlockTemplate.get`: no template held, or
the refresh interval elapsed. -/
def fetchDue (now : Int) (s : CacheState) : Prop :=
  s.template = none ∨ now - s.last_update > 30

instance (now : Int) (s : CacheState) : Decidable (fetchDue now s) := by
  unfold fetchDue; infer_instance

/-- The cache invalidation the main loop performs after a successful
submission: `block_template.last_update = 0`. -/
def cacheInvalidate (s : CacheState) : CacheState := ⟨s.template, 0⟩

/-! ## Header assembler and worker search loop (`btc_worker`) -/

/-- The header preimage `btc_worker` assembles from a template and the
coinbase bytes: packed version, reversed previous-block hash, the merkle
root (the double SHA-256 of the coinbase alone), packed `curtime`,
reversed bits.  `none` models a `struct.error` from the packs. -/
def headerPre (t : BlockTemplate) (cb : List Nat) : Option (List Nat) :=
  match pack_i32 t.version, pack_u32 t.curtime with
  | some vb, some tb =>
      some (vb ++ t.previousblockhash.reverse ++ dsha256 cb ++ tb ++
        t.bits.reverse)
  | _, _ => none

/-- `int.from_bytes(h[::-1], "big")` from the worker loop: the digest
bytes reversed and read as a big-endian integer. -/
def digestVal (h : List Nat) : Nat := beVal h.reverse

/-- One hashing step of the worker loop: pack the nonce (an error for
nonces outside 32 bits) and double-hash the preimage with it appended. -/
def hashStep (pre : List Nat) (n : Nat) : Option (List Nat) :=
  (pack_u32 n).map (fun nb => dsha256 (pre ++ nb))

/-- The success condition of the worker loop at nonce `n`: the double
digest of the preimage with the packed nonce appended, byte-reversed and
read big-endian, is strictly below the target. -/
def nonceHit (pre : List Nat) (target n : Nat) : Prop :=
  digestVal (dsha256 (pre ++ le4 n)) < target

instance (pre : List Nat) (target n : Nat) :
    Decidable (nonceHit pre target n) := by
  unfold nonceHit; infer_instance

/-- The worker search loop, by remaining fuel: try nonce `n`, then
`n + 1`, ...  `Except.error ()` models the `struct.error` a nonce outside
32 bits raises; `Except.ok (some n)` is a found nonce (the worker prints
it, submits and returns `True`); `Except.ok none` is an exhausted range
(`return False`). -/
def searchFrom (pre : List Nat) (target : Nat) : Nat → Nat → Except Unit (Option Nat)
  | _, 0 => Except.ok none
  | n, fuel + 1 =>
    match pack_u32 n with
    | none => Except.error ()
    | some nb =>
        if digestVal (dsha256 (pre ++ nb)) < target then Except.ok (some n)
        else searchFrom pre target (n + 1) fuel

/-- The worker's `for nonce in range(start, end)` search over a nonce
range. -/
def btc_search (pre : List Nat) (target s e : Nat) : Except Unit (Option Nat) :=
  searchFrom pre target s (e - s)

/-- One byte as two hex digits, high nibble first (`bytes.hex()` per
byte). -/
def bytesHex : List Nat → List Nat
  | [] => []
  | b :: rest => b / 16 :: b % 16 :: bytesHex rest

/-- The nibble sequence of the worker's f-string `f"{nonce:08x}"`: the
nonce as eight big-endian hex digits (exact for the nonces below `2^32`
that reach this expression). -/
def nonceHex8 (n : Nat) : List Nat :=
  [n >>> 28 &&& 15, n >>> 24 &&& 15, n >>> 20 &&& 15, n >>> 16 &&& 15,
   n >>> 12 &&& 15, n >>> 8 &&& 15, n >>> 4 &&& 15, n &&& 15]

/-- The hex block the worker submits on a find, as its nibble sequence:
`header_pre.hex() + f"{nonce:08x}" + "01" + cb.hex()`. -/
def submit_hex (header_pre : List Nat) (nonce : Nat) (cb : List Nat) :
    List Nat :=
  bytesHex header_pre ++ nonceHex8 nonce ++ [0, 1] ++ bytesHex cb

/-! ## Nonce allocator and main loop -/

/-- `NONCE_BLOCK_SIZE` from the source. -/
def NONCE_BLOCK_SIZE : Nat := 1000

/-- `nonce_allocator(shared_counter, lock)` from the source, on the
explicit counter state: returns the allocated `[start, start + 1000)`
range and the advanced counter (the lock serializes callers, so the
sequential state-passing function is the faithful model). -/
def nonce_allocator (counter : Nat) : (Nat × Nat) × Nat :=
  ((counter, counter + NONCE_BLOCK_SIZE), counter + NONCE_BLOCK_SIZE)

/-- The ranges of `n` successive `nonce_allocator` calls starting from
counter value `c`, in issuance order. -/
def allocList (c : Nat) : Nat → List (Nat × Nat)
  | 0 => []
  | n + 1 => (nonce_allocator c).1 :: allocList (nonce_allocator c).2 n

/-- The counter value after `k` successive `nonce_allocator` calls from a
fresh counter. -/
def counterAfter : Nat → Nat
  | 0 => 0
  | k + 1 => (nonce_allocator (counterAfter k)).2

/-- The state the main loop shares across rounds: the nonce counter and
the main process's `CachedBlockTemplate` object.  (Workers receive pickled
copies of the cache; their fetches never mutate this state.) -/
structure MainState where
  counter : Nat
  cache : CacheState
  deriving DecidableEq, Repr

/-- One iteration of the main `while True` loop with `cores` workers:
allocate `cores` ranges from the shared counter (advancing it by 1000
each), dispatch the workers, and — exactly when some worker reports a
find (`found`) — reset the counter to 0 and set the cache's
`last_update` to 0.  Returns the next state and the allocated ranges. -/
def roundStep (cores : Nat) (s : MainState) (found : Bool) :
    MainState × List (Nat × Nat) :=
  (⟨if found then 0 else s.counter + NONCE_BLOCK_SIZE * cores,
    if found then cacheInvalidate s.cache else s.cache⟩,
   allocList s.counter cores)

/-- Membership of a nonce in an allocated `[start, end)` range pair. -/
def inRange (p : Nat × Nat) (x : Nat) : Prop := p.1 ≤ x ∧ x < p.2

instance (p : Nat × Nat) (x : Nat) : Decidable (inRange p x) := by
  unfold inRange; infer_instance

/-! ## Helper lemmas -/

theorem wordBE_length (w : Nat) : (wordBE w).length = 4 := rfl

theorem mem_wordBE_lt {b w : Nat} (hb : b ∈ wordBE w) : b < 256 := by
  have hand : ∀ x : Nat, x &&& 255 < 256 :=
    fun x => Nat.lt_succ_of_le (Nat.and_le_right)
  simp only [wordBE, List.mem_cons, List.not_mem_nil, or_false] at hb
  rcases hb with rfl | rfl | rfl | rfl <;> exact hand _

theorem sha256_length (m : List Nat) : (sha256 m).length = 32 := by
  simp [sha256, wordBE]

theorem sha256_byte_lt (m : List Nat) : ∀ b ∈ sha256 m, b < 256 := by
  intro b hb
  simp only [sha256, List.mem_append] at hb
  rcases hb with ((((((h | h) | h) | h) | h) | h) | h) | h <;>
    exact mem_wordBE_lt h

theorem dsha256_length (m : List Nat) : (dsha256 m).length = 32 :=
  sha256_length _

theorem beVal_aux_lt :
    ∀ (l : List Nat) (acc : Nat), (∀ b ∈ l, b < 256) →
      l.foldl (fun a b => 256 * a + b) acc < (acc + 1) * 256 ^ l.length := by
  intro l
  induction l with
  | nil => intro acc _; simp
  | cons b rest ih =>
      intro acc h
      have hb : b < 256 := h b (List.mem_cons_self b rest)
      have h1 := ih (256 * acc + b) (fun x hx => h x (List.mem_cons_of_mem b hx))
      have h2 : (256 * acc + b + 1) * 256 ^ rest.length ≤
          (acc + 1) * 256 ^ (b :: rest).length := by
        simp only [List.length_cons, pow_succ]
        calc (256 * acc + b + 1) * 256 ^ rest.length
            ≤ (256 * (acc + 1)) * 256 ^ rest.length := by
              apply Nat.mul_le_mul_right; omega
          _ = (acc + 1) * (256 ^ rest.length * 256) := by ring
      exact lt_of_lt_of_le (by simpa using h1) h2

theorem beVal_lt (l : List Nat) (h : ∀ b ∈ l, b < 256) :
    beVal l < 256 ^ l.length := by
  simpa using beVal_aux_lt l 0 h

theorem digestVal_dsha256_lt (x : List Nat) :
    digestVal (dsha256 x) < 2 ^ 256 := by
  have h1 : ∀ b ∈ (dsha256 x).reverse, b < 256 := fun b hb =>
    sha256_byte_lt _ b (List.mem_reverse.mp hb)
  have h2 := beVal_lt _ h1
  have h3 : ((dsha256 x).reverse).length = 32 := by
    rw [List.length_reverse]; exact dsha256_length x
  rw [h3] at h2
  have h4 : (256 : Nat) ^ 32 = 2 ^ 256 := by norm_num
  exact h4 ▸ h2

theorem le4_length (n : Nat) : (le4 n).length = 4 := rfl

theorem searchFrom_found_iff (pre : List Nat) (t : Nat) :
    ∀ (fuel s n : Nat), s + fuel ≤ 2 ^ 32 →
      (searchFrom pre t s fuel = Except.ok (some n) ↔
        s ≤ n ∧ n < s + fuel ∧ nonceHit pre t n ∧
          ∀ m, s ≤ m → m < n → ¬ nonceHit pre t m) := by
  intro fuel
  induction fuel with
  | zero =>
      intro s n _
      constructor
      · intro h; simp [searchFrom] at h
      · rintro ⟨h1, h2, -, -⟩; exact absurd h2 (by omega)
  | succ f ih =>
      intro s n hle
      have h32 : (2 : Nat) ^ 32 = 4294967296 := by norm_num
      have hs : s < 4294967296 := by rw [h32] at hle; omega
      have hpack : pack_u32 s = some (le4 s) := by simp [pack_u32, h32, hs]
      rw [searchFrom, hpack]
      show (if digestVal (dsha256 (pre ++ le4 s)) < t then Except.ok (some s)
          else searchFrom pre t (s + 1) f) = Except.ok (some n) ↔ _
      by_cases hhit : digestVal (dsha256 (pre ++ le4 s)) < t
      · rw [if_pos hhit]
        constructor
        · intro h
          have hn : n = s := by
            have := Except.ok.inj h
            exact (Option.some.inj this).symm
          subst hn
          exact ⟨le_refl n, by omega, hhit, fun m h1 h2 => absurd h1 (by omega)⟩
        · rintro ⟨h1, h2, h3, h4⟩
          have hn : n = s := by
            by_contra hne
            exact h4 s (le_refl s) (by omega) hhit
          subst hn; rfl
      · rw [if_neg hhit]
        rw [ih (s + 1) n (by omega)]
        have hhit' : ¬ nonceHit pre t s := hhit
        constructor
        · rintro ⟨h1, h2, h3, h4⟩
          refine ⟨by omega, by omega, h3, ?_⟩
          intro m hm1 hm2
          rcases Nat.eq_or_lt_of_le hm1 with rfl | hlt
          · exact hhit'
          · exact h4 m hlt hm2
        · rintro ⟨h1, h2, h3, h4⟩
          have hns : n ≠ s := fun h => hhit' (h ▸ h3)
          refine ⟨by omega, by omega, h3, ?_⟩
          intro m hm1 hm2
          exact h4 m (by omega) hm2

theorem searchFrom_none_iff (pre : List Nat) (t : Nat) :
    ∀ (fuel s : Nat), s + fuel ≤ 2 ^ 32 →
      (searchFrom pre t s fuel = Except.ok none ↔
        ∀ m, s ≤ m → m < s + fuel → ¬ nonceHit pre t m) := by
  intro fuel
  induction fuel with
  | zero =>
      intro s _
      constructor
      · intro _ m h1 h2 _; omega
      · intro _; rfl
  | succ f ih =>
      intro s hle
      have h32 : (2 : Nat) ^ 32 = 4294967296 := by norm_num
      have hs : s < 4294967296 := by rw [h32] at hle; omega
      have hpack : pack_u32 s = some (le4 s) := by simp [pack_u32, h32, hs]
      rw [searchFrom, hpack]
      show (if digestVal (dsha256 (pre ++ le4 s)) < t then Except.ok (some s)
          else searchFrom pre t (s + 1) f) = Except.ok none ↔ _
      by_cases hhit : digestVal (dsha256 (pre ++ le4 s)) < t
      · rw [if_pos hhit]
        constructor
        · intro h; exact absurd h (by simp)
        · intro h; exact absurd hhit (h s (le_refl s) (by omega))
      · rw [if_neg hhit]
        rw [ih (s + 1) (by omega)]
        have hhit' : ¬ nonceHit pre t s := hhit
        constructor
        · intro h m hm1 hm2
          rcases Nat.eq_or_lt_of_le hm1 with rfl | hlt
          · exact hhit'
          · exact h m hlt (by omega)
        · intro h m hm1 hm2
          exact h m (by omega) (by omega)

theorem allocList_length : ∀ (n c : Nat), (allocList c n).length = n := by
  intro n
  induction n with
  | zero => intro c; rfl
  | succ k ih => intro c; simp [allocList, ih]

theorem allocList_getD :
    ∀ (n c i : Nat), i < n →
      (allocList c n).getD i (0, 0) =
        (c + 1000 * i, c + 1000 * (i + 1)) := by
  intro n
  induction n with
  | zero => intro c i h; omega
  | succ k ih =>
      intro c i h
      cases i with
      | zero => simp [allocList, nonce_allocator, NONCE_BLOCK_SIZE]
      | succ j =>
          have := ih (c + 1000) j (by omega)
          simp only [allocList, nonce_allocator, NONCE_BLOCK_SIZE,
            List.getD_cons_succ]
          rw [this]
          simp only [Prod.mk.injEq]
          omega

theorem counterAfter_eq (k : Nat) : counterAfter k = 1000 * k := by
  induction k with
  | zero => rfl
  | succ j ih =>
      simp only [counterAfter, nonce_allocator, NONCE_BLOCK_SIZE, ih]
      omega

theorem append5_segments {α : Type} (A P D T B : List α)
    (hA : A.length = 4) (hP : P.length = 32) (hD : D.length = 32)
    (hT : T.length = 4) :
    (A ++ P ++ D ++ T ++ B).take 4 = A ∧
    ((A ++ P ++ D ++ T ++ B).drop 4).take 32 = P ∧
    ((A ++ P ++ D ++ T ++ B).drop 36).take 32 = D ∧
    ((A ++ P ++ D ++ T ++ B).drop 68).take 4 = T ∧
    (A ++ P ++ D ++ T ++ B).drop 72 = B := by
  have e1 : A ++ P ++ D ++ T ++ B = A ++ (P ++ (D ++ (T ++ B))) := by
    simp [List.append_assoc]
  have e2 : A ++ P ++ D ++ T ++ B = (A ++ P) ++ (D ++ (T ++ B)) := by
    simp [List.append_assoc]
  have e3 : A ++ P ++ D ++ T ++ B = (A ++ P ++ D) ++ (T ++ B) := by
    simp [List.append_assoc]
  refine ⟨?_, ?_, ?_, ?_, ?_⟩
  · rw [e1]; exact List.take_left' hA
  · rw [e1, List.drop_left' hA]; exact List.take_left' hP
  · rw [e2, List.drop_left' (by simp [List.length_append, hA, hP])]
    exact List.take_left' hD
  · rw [e3, List.drop_left' (by simp [List.length_append, hA, hP, hD])]
    exact List.take_left' hT
  · exact List.drop_left' (by simp [List.length_append, hA, hP, hD, hT])

/-! ## Claim theorems -/

/-- Claim C1: for every nonce range `[s, e)` with `s ≤ e ≤ 2^32`, every
76-byte header preimage and every target, the worker search returns the
smallest nonce `n` in the range whose double digest, byte-reversed and
read big-endian, is strictly below the target, and reports not-found
exactly when no nonce in the range satisfies the strict inequality
(digests equal to the target included). -/
theorem C1_worker_search_first_hit (pre : List Nat) (target s e n : Nat)
    (_hpre : pre.length = 76) (hse : s ≤ e) (he : e ≤ 2 ^ 32) :
    (btc_search pre target s e = Except.ok (some n) ↔
      s ≤ n ∧ n < e ∧ nonceHit pre target n ∧
        ∀ m, s ≤ m → m < n → ¬ nonceHit pre target m) ∧
    (btc_search pre target s e = Except.ok none ↔
      ∀ m, s ≤ m → m < e → ¬ nonceHit pre target m) := by
  have hfuel : s + (e - s) = e := by omega
  constructor
  · rw [btc_search, searchFrom_found_iff pre target (e - s) s n (by omega),
      hfuel]
  · rw [btc_search, searchFrom_none_iff pre target (e - s) s (by omega),
      hfuel]

/-- Witness for C1: searching `[0, 1)` over a 76-byte zero preimage
against the maximal target finds nonce 0. -/
theorem C1_worker_search_first_hit_witness :
    (List.replicate 76 0 : List Nat).length = 76 ∧ (0 : Nat) ≤ 1 ∧
      (1 : Nat) ≤ 2 ^ 32 ∧
      btc_search (List.replicate 76 0) (2 ^ 256) 0 1 = Except.ok (some 0) := by
  refine ⟨by simp, by omega, by norm_num, ?_⟩
  exact (C1_worker_search_first_hit (List.replicate 76 0) (2 ^ 256) 0 1 0
      (by simp) (by omega) (by norm_num)).1.mpr
    ⟨le_refl 0, Nat.zero_lt_one, digestVal_dsha256_lt _,
      fun m _ h => absurd h (by omega)⟩

/-- Claim C2: for a template whose fields are in range (32-bit version and
time, 32-byte previous hash, 4-byte bits), the assembled header preimage
is exactly 76 bytes laid out as little-endian version, reversed previous
hash, the double digest of the coinbase alone, little-endian curtime, and
reversed bits; appending a 4-byte little-endian nonce yields 80 bytes. -/
theorem C2_header_preimage_layout (t : BlockTemplate) (cb : List Nat)
    (hv1 : -(2 ^ 31) ≤ t.version) (hv2 : t.version < 2 ^ 31)
    (hc : t.curtime < 2 ^ 32) (hp : t.previousblockhash.length = 32)
    (hb : t.bits.length = 4) :
    ∃ hp76, headerPre t cb = some hp76 ∧
      hp76.length = 76 ∧
      (∀ nonce, (hp76 ++ le4 nonce).length = 80) ∧
      hp76.take 4 = le4 ((t.version % 2 ^ 32).toNat) ∧
      (hp76.drop 4).take 32 = t.previousblockhash.reverse ∧
      (hp76.drop 36).take 32 = dsha256 cb ∧
      (hp76.drop 68).take 4 = le4 t.curtime ∧
      hp76.drop 72 = t.bits.reverse := by
  have hv : pack_i32 t.version = some (le4 ((t.version % 2 ^ 32).toNat)) := by
    simp only [pack_i32, if_pos (And.intro hv1 hv2)]
  have hcc : pack_u32 t.curtime = some (le4 t.curtime) := by
    simp only [pack_u32, if_pos hc]
  have hA : (le4 ((t.version % 2 ^ 32).toNat)).length = 4 := rfl
  have hP : (t.previousblockhash.reverse).length = 32 := by
    rw [List.length_reverse]; exact hp
  have hD : (dsha256 cb).length = 32 := dsha256_length cb
  have hT : (le4 t.curtime).length = 4 := rfl
  have hB : (t.bits.reverse).length = 4 := by
    rw [List.length_reverse]; exact hb
  obtain ⟨g1, g2, g3, g4, g5⟩ :=
    append5_segments (le4 ((t.version % 2 ^ 32).toNat))
      t.previousblockhash.reverse (dsha256 cb) (le4 t.curtime)
      t.bits.reverse hA hP hD hT
  refine ⟨le4 ((t.version % 2 ^ 32).toNat) ++ t.previousblockhash.reverse ++
      dsha256 cb ++ le4 t.curtime ++ t.bits.reverse, ?_, ?_, ?_,
      g1, g2, g3, g4, g5⟩
  · simp only [headerPre, hv, hcc]
  · simp only [List.length_append, hA, hP, hD, hT, hB]
  · intro nonce
    simp only [List.length_append, hA, hP, hD, hT, hB, le4_length]

/-- Witness for C2: the end-to-end template of the specification (version
`0x20000000`, a 32-byte previous hash ending in `0x01`, curtime
1690000000, bits `1d00ffff`, height 100) with a small coinbase. -/
theorem C2_header_preimage_layout_witness :
    (-(2 ^ 31) : Int) ≤ 0x20000000 ∧ (0x20000000 : Int) < 2 ^ 31 ∧
      (1690000000 : Nat) < 2 ^ 32 ∧
      (List.replicate 31 0 ++ [1] : List Nat).length = 32 ∧
      ([0x1d, 0x00, 0xff, 0xff] : List Nat).length = 4 ∧
      ∃ hp76,
        headerPre
            ⟨0x20000000, List.replicate 31 0 ++ [1], 1690000000,
              [0x1d, 0x00, 0xff, 0xff], 0, 100⟩ [1, 2, 3] = some hp76 ∧
          hp76.length = 76 ∧
          (∀ nonce, (hp76 ++ le4 nonce).length = 80) ∧
          hp76.take 4 = le4 (((0x20000000 : Int) % 2 ^ 32).toNat) ∧
          (hp76.drop 4).take 32 = (List.replicate 31 0 ++ [1]).reverse ∧
          (hp76.drop 36).take 32 = dsha256 [1, 2, 3] ∧
          (hp76.drop 68).take 4 = le4 1690000000 ∧
          hp76.drop 72 = ([0x1d, 0x00, 0xff, 0xff] : List Nat).reverse := by
  refine ⟨by norm_num, by norm_num, by norm_num, by simp, by simp, ?_⟩
  exact C2_header_preimage_layout
    ⟨0x20000000, List.replicate 31 0 ++ [1], 1690000000,
      [0x1d, 0x00, 0xff, 0xff], 0, 100⟩ [1, 2, 3]
    (by norm_num) (by norm_num) (by norm_num) (by simp) (by simp)

/-- Claim C3 (code bug): the coinbase the code builds at height 100 with
the worker's tag message and a 20-byte payout script is 56 bytes, and the
32 bytes after the input count are not 32 zero bytes — the all-ones
previous-output index follows the input count directly, because the
source writes an empty bytes string times 32 where the null previous-output
hash belongs.  The claim's 32-byte null hash is absent. -/
theorem C3_coinbase_missing_null_prevout :
    ((create_coinbase 100 [66, 84, 67, 95, 71, 82, 79, 86, 69, 82]
        (List.replicate 20 0)).getD []).length = 56 ∧
    (((create_coinbase 100 [66, 84, 67, 95, 71, 82, 79, 86, 69, 82]
        (List.replicate 20 0)).getD []).drop 2).take 32 ≠
      List.replicate 32 0 ∧
    (((create_coinbase 100 [66, 84, 67, 95, 71, 82, 79, 86, 69, 82]
        (List.replicate 20 0)).getD []).drop 2).take 4 =
      [255, 255, 255, 255] := by decide

/-- Claim C4 (code bug): at winning nonce 1 the submitted hex block is the
preimage hex followed by the nonce as eight big-endian hex digits, which
differs from the hex of the 80-byte header that was hashed (preimage plus
the nonce's little-endian bytes). -/
theorem C4_submit_nonce_byte_order :
    submit_hex (List.replicate 76 0) 1 [0xab] =
      bytesHex (List.replicate 76 0) ++ [0, 0, 0, 0, 0, 0, 0, 1] ++ [0, 1] ++
        bytesHex [0xab] ∧
    bytesHex (le4 1) = [0, 1, 0, 0, 0, 0, 0, 0] ∧
    submit_hex (List.replicate 76 0) 1 [0xab] ≠
      bytesHex (List.replicate 76 0 ++ le4 1) ++ [0, 1] ++
        bytesHex [0xab] := by decide

/-- Claim C5: starting from counter 0, `N` allocator calls return exactly
the ranges `[1000 i, 1000 (i + 1))` in issuance order; each call returns
`[counter, counter + 1000)` and advances the counter by 1000; the ranges
are pairwise disjoint and collectively cover `[0, 1000 N)`. -/
theorem C5_allocator_disjoint_cover (N : Nat) :
    (∀ c, nonce_allocator c = ((c, c + 1000), c + 1000)) ∧
    (allocList 0 N).length = N ∧
    (∀ i, i < N →
      (allocList 0 N).getD i (0, 0) = (1000 * i, 1000 * (i + 1))) ∧
    (∀ i j, i < N → j < N → i ≠ j → ∀ x,
      ¬ (inRange ((allocList 0 N).getD i (0, 0)) x ∧
         inRange ((allocList 0 N).getD j (0, 0)) x)) ∧
    (∀ x, x < 1000 * N ↔
      ∃ i, i < N ∧ inRange ((allocList 0 N).getD i (0, 0)) x) := by
  refine ⟨fun c => rfl, allocList_length N 0, ?_, ?_, ?_⟩
  · intro i hi
    simpa using allocList_getD N 0 i hi
  · intro i j hi hj hne x hcon
    rw [allocList_getD N 0 i hi, allocList_getD N 0 j hj] at hcon
    simp only [inRange] at hcon
    omega
  · intro x
    constructor
    · intro hx
      refine ⟨x / 1000, by omega, ?_⟩
      rw [allocList_getD N 0 (x / 1000) (by omega)]
      simp only [inRange]
      omega
    · rintro ⟨i, hi, hx⟩
      rw [allocList_getD N 0 i hi] at hx
      simp only [inRange] at hx
      omega

/-- Witness for C5: two and three allocator calls from a fresh counter. -/
theorem C5_allocator_disjoint_cover_witness :
    (1 : Nat) < 2 ∧
    (allocList 0 2).getD 1 (0, 0) = (1000 * 1, 1000 * (1 + 1)) ∧
    ¬ (inRange ((allocList 0 2).getD 0 (0, 0)) 1500 ∧
       inRange ((allocList 0 2).getD 1 (0, 0)) 1500) ∧
    ((2500 : Nat) < 1000 * 3 ↔
      ∃ i, i < 3 ∧ inRange ((allocList 0 3).getD i (0, 0)) 2500) := by
  exact ⟨by omega, (C5_allocator_disjoint_cover 2).2.2.1 1 (by omega),
    (C5_allocator_disjoint_cover 2).2.2.2.1 0 1 (by omega) (by omega)
      (by omega) 1500,
    (C5_allocator_disjoint_cover 3).2.2.2.2 2500⟩

/-- Claim C6 (counterexample): a round with no find leaves the counter at
4000 (four workers), and the next round — whose workers' template-cache
copies are due for a fetch — allocates its first range starting at 4000,
not 0: the counter is not reset before allocation against a
newly-fetched template. -/
theorem C6_no_reset_on_interval_refetch :
    (roundStep 4 ⟨0, ⟨none, 0⟩⟩ false).1.counter = 4000 ∧
    fetchDue 1690000000 (roundStep 4 ⟨0, ⟨none, 0⟩⟩ false).1.cache ∧
    (roundStep 4 (roundStep 4 ⟨0, ⟨none, 0⟩⟩ false).1 false).2.getD 0 (0, 0) =
      (4000, 5000) := by decide

/-- Claim C6 (amended): the counter is reset to 0, and the cache
invalidated, exactly on a round that reports a find; a round with no find
advances the counter by `1000 · cores` and leaves the cache alone, and
every round allocates its ranges from the pre-round counter value. -/
theorem C6_counter_reset_only_on_find (cores : Nat) (s : MainState) :
    (roundStep cores s true).1.counter = 0 ∧
    (roundStep cores s true).1.cache = cacheInvalidate s.cache ∧
    (roundStep cores s true).1.cache.last_update = 0 ∧
    (roundStep cores s false).1.counter = s.counter + 1000 * cores ∧
    (roundStep cores s false).1.cache = s.cache ∧
    (∀ found, (roundStep cores s found).2 = allocList s.counter cores) :=
  ⟨rfl, rfl, rfl, rfl, rfl, fun _ => rfl⟩

/-- Claim C7: the template cache fetches exactly when empty or stale; a
fresh successful fetch caches template and timestamp; a `get` within the
30-second interval returns the cached template with no fetch and no state
change; a `get` after the interval, or after invalidation (at any
wall-clock reading past 30), fetches again; and a failed fetch returns
the previously cached template — or nothing — leaving the state
unchanged. -/
theorem C7_template_cache_policy :
    (∀ now fr s, (cacheGet now fr s).1 = true ↔ fetchDue now s) ∧
    (∀ now t s, fetchDue now s →
      cacheGet now (some t) s = (true, some t, ⟨some t, now⟩)) ∧
    (∀ now fr t lu, now - lu ≤ 30 →
      cacheGet now fr ⟨some t, lu⟩ = (false, some t, ⟨some t, lu⟩)) ∧
    (∀ now fr t lu, now - lu > 30 →
      (cacheGet now fr ⟨some t, lu⟩).1 = true) ∧
    (∀ now fr s, 30 < now → (cacheGet now fr (cacheInvalidate s)).1 = true) ∧
    (∀ now s, (cacheGet now none s).2.1 = s.template ∧
      (cacheGet now none s).2.2 = s) := by
  refine ⟨?_, ?_, ?_, ?_, ?_, ?_⟩
  · intro now fr s
    unfold cacheGet fetchDue
    split
    next h => cases fr <;> simp [h]
    next h => simp [h]
  · intro now t s h
    unfold fetchDue at h
    unfold cacheGet
    split
    next => rfl
    next hneg => exact absurd h hneg
  · intro now fr t lu h
    have hcond : ¬ ((⟨some t, lu⟩ : CacheState).template = none ∨
        now - (⟨some t, lu⟩ : CacheState).last_update > 30) := by
      intro hor
      rcases hor with h1 | h2
      · exact Option.noConfusion h1
      · simp only at h2; omega
    unfold cacheGet
    rw [if_neg hcond]
  · intro now fr t lu h
    have hcond : (⟨some t, lu⟩ : CacheState).template = none ∨
        now - (⟨some t, lu⟩ : CacheState).last_update > 30 := Or.inr h
    unfold cacheGet
    rw [if_pos hcond]
    cases fr <;> rfl
  · intro now fr s h
    have hcond : (cacheInvalidate s).template = none ∨
        now - (cacheInvalidate s).last_update > 30 := by
      right
      show now - (0 : Int) > 30
      omega
    unfold cacheGet
    rw [if_pos hcond]
    cases fr <;> rfl
  · intro now s
    unfold cacheGet
    split <;> exact ⟨rfl, rfl⟩

/-- Witness for C7: a concrete template cached at time 100; reads at times
110 (fresh), 140 (stale), and after invalidation. -/
theorem C7_template_cache_policy_witness :
    fetchDue 100 ⟨none, 0⟩ ∧
    cacheGet 100 (some ⟨1, [], 0, [], 0, 0⟩) ⟨none, 0⟩ =
      (true, some ⟨1, [], 0, [], 0, 0⟩, ⟨some ⟨1, [], 0, [], 0, 0⟩, 100⟩) ∧
    ((110 : Int) - 100 ≤ 30) ∧
    cacheGet 110 none ⟨some ⟨1, [], 0, [], 0, 0⟩, 100⟩ =
      (false, some ⟨1, [], 0, [], 0, 0⟩, ⟨some ⟨1, [], 0, [], 0, 0⟩, 100⟩) ∧
    ((140 : Int) - 100 > 30) ∧
    (cacheGet 140 none ⟨some ⟨1, [], 0, [], 0, 0⟩, 100⟩).1 = true ∧
    ((30 : Int) < 140) ∧
    (cacheGet 140 none (cacheInvalidate ⟨some ⟨1, [], 0, [], 0, 0⟩, 100⟩)).1 =
      true := by
  refine ⟨by decide, ?_, by decide, ?_, by decide, ?_, by decide, ?_⟩
  · exact C7_template_cache_policy.2.1 100 ⟨1, [], 0, [], 0, 0⟩ ⟨none, 0⟩
      (by decide)
  · exact C7_template_cache_policy.2.2.1 110 none ⟨1, [], 0, [], 0, 0⟩ 100
      (by decide)
  · exact C7_template_cache_policy.2.2.2.1 140 none ⟨1, [], 0, [], 0, 0⟩ 100
      (by decide)
  · exact C7_template_cache_policy.2.2.2.2.1 140 none
      ⟨some ⟨1, [], 0, [], 0, 0⟩, 100⟩ (by decide)

/-- Claim C8 (counterexample): two consecutive failing resolutions from a
fresh cache return their respective `os.urandom(20)` draws and cache
nothing, so the second call's output differs from the first whenever the
draws differ — the random placeholder is not cached. -/
theorem C8_uncached_failure_placeholder :
    get_mining_script none false none (List.replicate 20 0) =
      (List.replicate 20 0, none) ∧
    get_mining_script none false none (List.replicate 20 1) =
      (List.replicate 20 1, none) ∧
    (List.replicate 20 0 : List Nat) ≠ List.replicate 20 1 := by decide

/-- Claim C8 (amended): a nonempty successfully resolved script is cached
and returned byte-identically by every later call without further
resolution; a failing resolution returns the fresh random placeholder and
caches nothing. -/
theorem C8_script_cached_only_on_success :
    (∀ sv addr_ok spk rand, sv ≠ [] →
      get_mining_script (some sv) addr_ok spk rand = (sv, some sv)) ∧
    (∀ sv rand, get_mining_script none true (some sv) rand = (sv, some sv)) ∧
    (∀ rand spk, get_mining_script none false spk rand = (rand, none)) ∧
    (∀ rand, get_mining_script none true none rand = (rand, none)) := by
  refine ⟨?_, fun sv rand => rfl, fun rand spk => rfl, fun rand => rfl⟩
  intro sv addr_ok spk rand h
  simp [get_mining_script, h]

/-- Witness for C8: the cached one-byte script `[7]` is returned unchanged
by a later call whose RPC inputs fail. -/
theorem C8_script_cached_only_on_success_witness :
    ([7] : List Nat) ≠ [] ∧
    get_mining_script (some [7]) false none (List.replicate 20 3) =
      ([7], some [7]) :=
  ⟨by decide,
    C8_script_cached_only_on_success.1 [7] false none (List.replicate 20 3)
      (by decide)⟩

/-- Claim C9 (counterexample): at `n = 2^64` the final branch's
`struct.pack("<Q", n)` is an error, not a marker byte plus eight bytes. -/
theorem C9_compact_size_overflow : compact_size (2 ^ 64) = none := by decide

/-- Claim C9 (amended): the compact-size encoding is a single byte below
`0xFD`, marker `0xFD` plus two little-endian bytes up to `0xFFFF`, marker
`0xFE` plus four up to `0xFFFFFFFF`, marker `0xFF` plus eight below
`2^64` — and an error at `2^64` and beyond. -/
theorem C9_compact_size_encoding (n : Nat) :
    (n < 0xfd → compact_size n = some [n]) ∧
    (0xfd ≤ n → n ≤ 0xffff → compact_size n = some (0xfd :: le2 n)) ∧
    (0xffff < n → n ≤ 0xffffffff → compact_size n = some (0xfe :: le4 n)) ∧
    (0xffffffff < n → n < 2 ^ 64 → compact_size n = some (0xff :: le8 n)) ∧
    (2 ^ 64 ≤ n → compact_size n = none) := by
  have h16 : (2 : Nat) ^ 16 = 65536 := by norm_num
  have h64 : (2 : Nat) ^ 64 = 18446744073709551616 := by norm_num
  refine ⟨?_, ?_, ?_, ?_, ?_⟩
  · intro h
    simp only [compact_size]
    rw [if_pos h]
  · intro h1 h2
    simp only [compact_size, pack_u16]
    rw [if_neg (by omega), if_pos h2, if_pos (by omega)]
    rfl
  · intro h1 h2
    simp only [compact_size, pack_u32]
    rw [if_neg (by omega), if_neg (by omega), if_pos h2, if_pos (by omega)]
    rfl
  · intro h1 h2
    simp only [compact_size, pack_u64]
    rw [if_neg (by omega), if_neg (by omega), if_neg (by omega),
      if_pos (by omega)]
    rfl
  · intro h
    simp only [compact_size, pack_u64]
    rw [if_neg (by omega), if_neg (by omega), if_neg (by omega),
      if_neg (by omega)]
    rfl

/-- Witness for C9: one value in each branch. -/
theorem C9_compact_size_encoding_witness :
    (5 : Nat) < 0xfd ∧ compact_size 5 = some [5] ∧
    ((0xfd : Nat) ≤ 300 ∧ (300 : Nat) ≤ 0xffff) ∧
      compact_size 300 = some (0xfd :: le2 300) ∧
    ((0xffff : Nat) < 70000 ∧ (70000 : Nat) ≤ 0xffffffff) ∧
      compact_size 70000 = some (0xfe :: le4 70000) ∧
    ((0xffffffff : Nat) < 2 ^ 33 ∧ 2 ^ 33 < 2 ^ 64) ∧
      compact_size (2 ^ 33) = some (0xff :: le8 (2 ^ 33)) ∧
    2 ^ 64 ≤ 2 ^ 64 ∧ compact_size (2 ^ 64) = none := by
  exact ⟨by norm_num, (C9_compact_size_encoding 5).1 (by norm_num),
    ⟨by norm_num, by norm_num⟩,
    (C9_compact_size_encoding 300).2.1 (by norm_num) (by norm_num),
    ⟨by norm_num, by norm_num⟩,
    (C9_compact_size_encoding 70000).2.2.1 (by norm_num) (by norm_num),
    ⟨by norm_num, by norm_num⟩,
    (C9_compact_size_encoding (2 ^ 33)).2.2.2.1 (by norm_num) (by norm_num),
    le_refl _, (C9_compact_size_encoding (2 ^ 64)).2.2.2.2 (le_refl _)⟩

/-- Claim C10: the per-nonce packing succeeds (and the hashing step is
defined) exactly for nonces below `2^32`; at and above `2^32` the packing
step is an error, never a wrapped value; and the allocator's counter grows
without bound, so the allocator alone does not establish the
precondition. -/
theorem C10_search_totality_precondition (pre : List Nat) :
    (∀ n, n < 2 ^ 32 →
      pack_u32 n = some (le4 n) ∧ (le4 n).length = 4 ∧
        hashStep pre n = some (dsha256 (pre ++ le4 n))) ∧
    (∀ n, 2 ^ 32 ≤ n → pack_u32 n = none ∧ hashStep pre n = none) ∧
    (∀ B, ∃ k, B < counterAfter k) := by
  refine ⟨?_, ?_, ?_⟩
  · intro n h
    have hp : pack_u32 n = some (le4 n) := by
      unfold pack_u32
      rw [if_pos h]
    refine ⟨hp, rfl, ?_⟩
    unfold hashStep
    rw [hp]
    rfl
  · intro n h
    have hp : pack_u32 n = none := by
      unfold pack_u32
      rw [if_neg (Nat.not_lt.mpr h)]
    refine ⟨hp, ?_⟩
    unfold hashStep
    rw [hp]
    rfl
  · intro B
    refine ⟨B + 1, ?_⟩
    rw [counterAfter_eq]
    omega

/-- Witness for C10: nonce 5 packs and hashes; nonce `2^32` errors; the
counter eventually exceeds `2^32`. -/
theorem C10_search_totality_precondition_witness :
    (5 : Nat) < 2 ^ 32 ∧ pack_u32 5 = some (le4 5) ∧
    hashStep [] 5 = some (dsha256 ([] ++ le4 5)) ∧
    2 ^ 32 ≤ 2 ^ 32 ∧ pack_u32 (2 ^ 32) = none ∧
    (∃ k, 2 ^ 32 < counterAfter k) := by
  exact ⟨by norm_num,
    ((C10_search_totality_precondition []).1 5 (by norm_num)).1,
    ((C10_search_totality_precondition []).1 5 (by norm_num)).2.2,
    le_refl _,
    ((C10_search_totality_precondition []).2.1 (2 ^ 32) (le_refl _)).1,
    (C10_search_totality_precondition []).2.2 (2 ^ 32)⟩
